import Mathlib

set_option autoImplicit false

/-!
Shallow embedding of the monitoring and delivery pipeline of src/main.py
(a Telegram file-downloader bot): the dedup ledger and site registry backed
by sqlite (class Database), the scanner's link filter
(WebsiteScanner.find_files_on_page), URL resolution as performed by the
urllib.parse.urljoin call in the scanner, the downloader (download_file),
and the per-file body of the sweep loop (check_websites), together with an
interleaving model of two concurrently running sweeps.

Machine-level conventions: byte strings are lists of natural numbers, the
filesystem of the temp_files directory is an association list from file
name to contents, and network effects (HTTP responses, delivery outcomes)
are explicit inputs to the embedded functions.
-/

-- ===================== Ledger (downloaded_files table) =====================

/-- One row of the downloaded_files table.  The file_url column carries a
UNIQUE constraint; sent_to_user records whether delivery succeeded. -/
structure LedgerEntry where
  website_id : Nat
  file_url : String
  file_name : String
  file_size : Nat
  sent_to_user : Bool
deriving DecidableEq, Repr

/-- The downloaded_files table, in insertion order. -/
abbrev Ledger := List LedgerEntry

/-- Database.is_file_downloaded: SELECT 1 FROM downloaded_files WHERE
file_url = ?, returning whether a row exists. -/
def is_file_downloaded (db : Ledger) (file_url : String) : Bool :=
  db.any (fun e => e.file_url == file_url)

/-- Database.mark_file_downloaded: INSERT OR IGNORE INTO downloaded_files.
The UNIQUE constraint on file_url makes the insert a no-op when a row with
the same file_url exists; the method returns True in both cases (False is
returned only on a storage fault, which this fault-free model omits). -/
def mark_file_downloaded (db : Ledger) (website_id : Nat)
    (file_url file_name : String) (file_size : Nat) (sent : Bool) :
    Bool × Ledger :=
  if is_file_downloaded db file_url then (true, db)
  else (true, db ++ [⟨website_id, file_url, file_name, file_size, sent⟩])

/-- Arguments of one Database.mark_file_downloaded call. -/
structure RecordCall where
  website_id : Nat
  file_url : String
  file_name : String
  file_size : Nat
  sent : Bool
deriving DecidableEq, Repr

/-- Run a sequence of Database.mark_file_downloaded calls in order. -/
def applyRecords (db : Ledger) : List RecordCall → Ledger
  | [] => db
  | c :: cs =>
      applyRecords
        (mark_file_downloaded db c.website_id c.file_url c.file_name
          c.file_size c.sent).2 cs

-- ===================== Site registry (websites table) =====================

/-- One row of the websites table (created_at and last_checked omitted:
they play no role in the claims about removal). -/
structure Website where
  id : Nat
  url : String
  name : String
  chat_id : String
  folder : String
  file_types : String
deriving DecidableEq, Repr

/-- Database.delete_website: DELETE FROM websites WHERE url = ?, then
commit.  The method returns True whenever the statement executes without
raising, whether or not any row matched; it returns False only when the
storage layer raises (modelled by the storage_fault flag, in which case
sqlite leaves the table unchanged). -/
def delete_website (reg : List Website) (url : String)
    (storage_fault : Bool) : Bool × List Website :=
  if storage_fault then (false, reg)
  else (true, reg.filter (fun w => w.url != url))

/-- delete_site_command: replies with the Removed message when
delete_website returns True and with the Not-found message otherwise. -/
def delete_site_command_reply (reg : List Website) (url : String)
    (storage_fault : Bool) : String :=
  if (delete_website reg url storage_fault).1 then "Removed: " ++ url
  else "Not found: " ++ url

-- ===================== Scanner link filter =====================

/-- Python str.lower restricted to ASCII, the alphabet of the URLs the
scanner manipulates: uppercase ASCII letters are shifted to lowercase and
every other character is unchanged. -/
def pyLowerChar (c : Char) : Char :=
  if 'A' ≤ c ∧ c ≤ 'Z' then Char.ofNat (c.toNat + 32) else c

/-- Python str.lower on an ASCII string. -/
def pyLower (s : String) : String :=
  String.mk (s.toList.map pyLowerChar)

/-- Python str.endswith: the argument is a suffix of the receiver
(character-wise; these URLs and extensions are ASCII). -/
def pyEndsWith (s suffix : String) : Bool :=
  suffix.toList == s.toList.drop (s.toList.length - suffix.toList.length)

/-- The inner extension loop of WebsiteScanner.find_files_on_page: walk the
configured extensions in order and return the first ext with
full_url.lower().endswith("." + ext), if any (the for/break in the
source). -/
def matchExtension (full_url : String) : List String → Option String
  | [] => none
  | ext :: rest =>
      if pyEndsWith (pyLower full_url) ("." ++ ext) then some ext
      else matchExtension full_url rest

/-- The predicate the specification sentence states for link acceptance:
the filter is empty or the single entry "all", or the lowercased URL ends
with ".<type>" for some configured type. -/
def acceptsSpecRule (file_extensions : List String) (full_url : String) :
    Bool :=
  file_extensions.isEmpty || file_extensions == ["all"] ||
    file_extensions.any
      (fun ext => pyEndsWith (pyLower full_url) ("." ++ ext))

-- ===================== download_file =====================

/-- Config.MAX_FILE_SIZE: 50 MB. -/
def MAX_FILE_SIZE : Nat := 50 * 1024 * 1024

/-- Python str.split with a one-character separator, on character lists:
empty pieces are kept and splitting the empty list yields one empty
piece. -/
def splitChar (c : Char) : List Char → List (List Char)
  | [] => [[]]
  | x :: xs =>
      if x = c then [] :: splitChar c xs
      else
        match splitChar c xs with
        | [] => [[x]]
        | p :: ps => (x :: p) :: ps

/-- Python sep.join on character lists (inverse of splitChar). -/
def joinChar (c : Char) : List (List Char) → List Char
  | [] => []
  | [p] => p
  | p :: ps => p ++ c :: joinChar c ps

/-- The file-name derivation at the top of download_file:
filename = file_url.split('/')[-1]; strip everything from the first '?'
when one is present; fall back to "file_<int(time.time())>.bin" when the
result is empty.  No other sanitization is performed. -/
def downloadFilename (file_url : String) (now : Nat) : String :=
  let fn0 := (splitChar '/' file_url.toList).getLastD []
  let fn1 := if fn0.contains '?' then (splitChar '?' fn0).headD [] else fn0
  if fn1 = [] then "file_" ++ toString now ++ ".bin" else String.mk fn1

/-- The character set the specification calls filesystem-safe: ASCII
alphanumerics, '.', '_', '-' and space. -/
def safeFilenameChar (c : Char) : Bool :=
  ('a' ≤ c ∧ c ≤ 'z') || ('A' ≤ c ∧ c ≤ 'Z') || ('0' ≤ c ∧ c ≤ '9') ||
    c = '.' || c = '_' || c = '-' || c = ' '

/-- An HTTP response as seen by download_file.  ok is false when
requests.get or raise_for_status raises (no body is ever read);
content_length is the declared content-length header when present; chunks
are the body chunks yielded by iter_content before the transfer either
completes (midstream_error = false) or aborts with a transport error
(midstream_error = true). -/
structure HttpResponse where
  ok : Bool
  content_length : Option Nat
  chunks : List (List Nat)
  midstream_error : Bool
deriving DecidableEq, Repr

/-- Contents of the temp_files directory: file name to byte contents. -/
abbrev TempDir := List (String × List Nat)

/-- open(path, 'wb') followed by sequential writes: creates or truncates
the named file, leaving it holding exactly the given bytes. -/
def writeTempFile (fs : TempDir) (name : String) (bytes : List Nat) :
    TempDir :=
  (name, bytes) :: fs.filter (fun p => p.1 != name)

/-- The record download_file returns on success. -/
structure Downloaded where
  path : String
  name : String
  size : Nat
  url : String
deriving DecidableEq, Repr

/-- download_file of src/main.py.  Derive the file name from the URL; on a
request failure return None with nothing written; read the declared
content length, defaulting to 0 when the header is absent, and return None
before opening the file when it exceeds MAX_FILE_SIZE; otherwise stream
the yielded chunks to the temp path.  A mid-stream transport error
propagates to the catch-all handler, which returns None — the partially
written file is closed by the with-block but never deleted.  On success
the returned size field is the declared content length, not the byte count
actually written. -/
def download_file (file_url : String) (now : Nat) (resp : HttpResponse)
    (fs : TempDir) : Option Downloaded × TempDir :=
  let filename := downloadFilename file_url now
  if ¬ resp.ok then (none, fs)
  else
    let file_size := resp.content_length.getD 0
    if file_size > MAX_FILE_SIZE then (none, fs)
    else if resp.midstream_error then
      (none, writeTempFile fs filename resp.chunks.flatten)
    else
      (some ⟨filename, filename, file_size, file_url⟩,
        writeTempFile fs filename resp.chunks.flatten)

-- ===================== Sweep loop (check_websites) =====================

/-- A candidate link as built by WebsiteScanner.find_files_on_page:
absolute URL, display name, matched extension. -/
structure FileInfo where
  url : String
  name : String
  ftype : String
deriving DecidableEq, Repr

/-- The per-file body of the sweep loop in check_websites: skip when
is_file_downloaded already holds; otherwise download (outcome supplied as
an input), and when the download produced a file, call send_file_to_user
(its Boolean outcome supplied as an input) and then unconditionally call
mark_file_downloaded with that outcome as the sent flag.  Returns the
ledger afterwards and whether this step delivered the file. -/
def processFile (db : Ledger) (website_id : Nat) (f : FileInfo)
    (fetch : Option Downloaded) (sendOutcome : Bool) : Ledger × Bool :=
  if is_file_downloaded db f.url then (db, false)
  else
    match fetch with
    | none => (db, false)
    | some d =>
        let sent := sendOutcome
        ((mark_file_downloaded db website_id f.url f.name d.size sent).2,
          sent)

-- ===================== Two overlapping sweeps =====================

/-- One sweep restricted to a single candidate file URL, with the program
counter marking its position inside the per-file body of check_websites:
0 = about to run the is_file_downloaded check, 1 = check passed and the
sweep is about to download, deliver and record, 2 = done with this file.
delivered counts the delivered outcomes this sweep produced for the
URL. -/
structure SweepThread where
  pc : Nat
  delivered : Nat
deriving DecidableEq, Repr

/-- Shared state of two sweeps running against the same ledger. -/
structure TwoSweeps where
  ledger : Ledger
  t1 : SweepThread
  t2 : SweepThread
deriving DecidableEq, Repr

/-- One atomic step of a sweep on the shared ledger.  At pc 0 it performs
the is_file_downloaded dedup check and either skips (done) or proceeds; at
pc 1 it performs the download / send_file_to_user / mark_file_downloaded
block, producing one delivered outcome (delivery assumed to succeed).
The suspension points of check_websites (the awaited download and send
calls) fall between the two steps, which is where a concurrent sweep may
interleave. -/
def stepSweep (website_id : Nat) (f : FileInfo) (size : Nat)
    (db : Ledger) (t : SweepThread) : Ledger × SweepThread :=
  match t.pc with
  | 0 =>
      if is_file_downloaded db f.url then (db, ⟨2, t.delivered⟩)
      else (db, ⟨1, t.delivered⟩)
  | 1 =>
      ((mark_file_downloaded db website_id f.url f.name size true).2,
        ⟨2, t.delivered + 1⟩)
  | _ => (db, t)

/-- Run the two sweeps under an explicit interleaving: true schedules a
step of the first sweep, false a step of the second. -/
def runSchedule (website_id : Nat) (f : FileInfo) (size : Nat) :
    List Bool → TwoSweeps → TwoSweeps
  | [], s => s
  | b :: bs, s =>
      if b then
        let r := stepSweep website_id f size s.ledger s.t1
        runSchedule website_id f size bs ⟨r.1, r.2, s.t2⟩
      else
        let r := stepSweep website_id f size s.ledger s.t2
        runSchedule website_id f size bs ⟨r.1, s.t1, r.2⟩

/-- Both sweeps start at the dedup check with no deliveries yet. -/
def initialSweeps (db : Ledger) : TwoSweeps :=
  ⟨db, ⟨0, 0⟩, ⟨0, 0⟩⟩

-- ===================== urljoin (urllib.parse) =====================

/-!
The scanner resolves each href with urllib.parse.urljoin(url, href).  The
following definitions embed CPython's urljoin for the domain the scanner
works in: the base is an absolute http or https URL with a nonempty host,
and the href is either an absolute http(s) URL (with the scheme written in
lowercase) or a scheme-less reference; neither carries a query, fragment
or params part, and a scheme-less href contains a colon only after its
first '/'.  On this domain the embedding follows CPython's algorithm step
by step: scheme comparison, authority takeover for network-path
references, RFC-3986 merge with dot-segment resolution for the rest
(including CPython's filtering of empty interior segments for
path-relative references, which is skipped for root-relative ones).
-/

/-- urlsplit on the modelled domain: an http(s) URL splits into scheme
(without the separator), netloc (up to the first following '/') and path
(the rest); anything else is a scheme-less reference. -/
def parseHttp (l : List Char) : Option (List Char × List Char × List Char) :=
  if l.take 7 = "http://".toList then
    some ("http".toList, (l.drop 7).takeWhile (fun c => c ≠ '/'),
      (l.drop 7).dropWhile (fun c => c ≠ '/'))
  else if l.take 8 = "https://".toList then
    some ("https".toList, (l.drop 8).takeWhile (fun c => c ≠ '/'),
      (l.drop 8).dropWhile (fun c => c ≠ '/'))
  else none

/-- CPython's resolved_path loop: '..' pops the accumulator (popping an
empty accumulator is ignored), '.' is skipped, and every other segment is
appended. -/
def resolveDots (acc : List (List Char)) : List (List Char) → List (List Char)
  | [] => acc
  | seg :: rest =>
      if seg = ['.', '.'] then resolveDots acc.dropLast rest
      else if seg = ['.'] then resolveDots acc rest
      else resolveDots (acc ++ [seg]) rest

/-- Tail worker for filterInterior: drop empty segments except in the
last position. -/
def filterInteriorTail : List (List Char) → List (List Char)
  | [] => []
  | [x] => [x]
  | x :: xs =>
      if x = [] then filterInteriorTail xs else x :: filterInteriorTail xs

/-- CPython's segments[1:-1] = filter(None, segments[1:-1]): drop empty
segments strictly between the first and the last. -/
def filterInterior : List (List Char) → List (List Char)
  | [] => []
  | x :: xs => x :: filterInteriorTail xs

/-- urlunsplit restricted to scheme plus nonempty netloc: a nonempty path
not starting with '/' gets one prepended, then scheme://netloc/path. -/
def unsplitHttp (scheme netloc path : List Char) : List Char :=
  let path' := if path ≠ [] ∧ path.headD ' ' ≠ '/' then '/' :: path else path
  scheme ++ ':' :: '/' :: '/' :: (netloc ++ path')

/-- The path-merging tail of urljoin: split the base path into parts,
dropping the last part when it is nonempty; a root-relative href path
replaces the whole base path, any other is appended to the base parts with
empty interior segments filtered out; resolve dot segments, re-add a
trailing empty segment when the last raw segment was '.' or '..', rejoin
(an empty join becomes the single segment '/'), and reassemble. -/
def mergeResolve (bs bn bp hp : List Char) : List Char :=
  let parts := splitChar '/' bp
  let baseParts := if parts.getLastD [] ≠ [] then parts.dropLast else parts
  let segments :=
    if hp.headD ' ' = '/' then splitChar '/' hp
    else filterInterior (baseParts ++ splitChar '/' hp)
  let resolved := resolveDots [] segments
  let resolved' :=
    if segments.getLastD [] = ['.'] ∨ segments.getLastD [] = ['.', '.']
    then resolved ++ [[]] else resolved
  let path := joinChar '/' resolved'
  let path' := if path = [] then ['/'] else path
  unsplitHttp bs bn path'

/-- Branch of urljoin reached once schemes agree: an href with its own
nonempty netloc is reassembled as-is (authority takeover); an empty href
path reproduces the base; anything else merges paths. -/
def resolveRef (bs bn bp netloc path : List Char) : List Char :=
  if netloc ≠ [] then unsplitHttp bs netloc path
  else if path = [] then unsplitHttp bs bn bp
  else mergeResolve bs bn bp path

/-- urllib.parse.urljoin on character lists, for the modelled domain
described above. -/
def urljoinChars (b h : List Char) : List Char :=
  match parseHttp b with
  | none => h
  | some (bs, bn, bp) =>
      match parseHttp h with
      | some (hs, hn, hp) => if hs ≠ bs then h else resolveRef bs bn bp hn hp
      | none =>
          if h.take 2 = ['/', '/'] then
            resolveRef bs bn bp ((h.drop 2).takeWhile (fun c => c ≠ '/'))
              ((h.drop 2).dropWhile (fun c => c ≠ '/'))
          else resolveRef bs bn bp [] h

/-- urllib.parse.urljoin as called by the scanner (empty base or href are
returned directly, as in CPython). -/
def urljoin (base href : String) : String :=
  if base = "" then href
  else if href = "" then base
  else String.mk (urljoinChars base.toList href.toList)

/-- The resolution rule exactly as the specification sentence states it
(for comparison with the source's urljoin): an already-absolute href
passes through unchanged; an href with a leading '/' is prefixed with the
origin's scheme and host; any other href joins against the page's own URL
as base. -/
def resolveClaimRule (base href : String) : String :=
  if (parseHttp href.toList).isSome then href
  else if href.toList.headD ' ' = '/' then
    match parseHttp base.toList with
    | some (bs, bn, _) => String.mk (bs ++ ':' :: '/' :: '/' :: bn) ++ href
    | none => href
  else urljoin base href

-- ===================== Helper lemmas =====================

theorem getLastD_of_ne_nil {α : Type} (l : List α) (a b : α) (h : l ≠ []) :
    l.getLastD a = l.getLastD b := by
  rw [List.getLastD_eq_getLast?, List.getLastD_eq_getLast?,
    List.getLast?_eq_getLast l h]
  rfl

theorem getLastD_cons_of_ne_nil {α : Type} (x : α) (l : List α) (d : α)
    (h : l ≠ []) : (x :: l).getLastD d = l.getLastD d := by
  rw [List.getLastD_cons]
  exact getLastD_of_ne_nil l x d h

theorem getLastD_mem {α : Type} (l : List α) (d : α) (h : l ≠ []) :
    l.getLastD d ∈ l := by
  induction l with
  | nil => exact absurd rfl h
  | cons x t ih =>
      cases t with
      | nil => simp
      | cons y u =>
          rw [getLastD_cons_of_ne_nil x (y :: u) d (by simp)]
          exact List.mem_cons_of_mem x (ih (by simp))

theorem splitChar_ne_nil (c : Char) (l : List Char) : splitChar c l ≠ [] := by
  induction l with
  | nil => simp [splitChar]
  | cons x xs ih =>
      simp only [splitChar]
      split
      · simp
      · split <;> simp

theorem splitChar_cons_sep (c : Char) (xs : List Char) :
    splitChar c (c :: xs) = [] :: splitChar c xs := by
  simp [splitChar]

theorem splitChar_cons_ne (c x : Char) (xs : List Char) (h : x ≠ c) :
    splitChar c (x :: xs) =
      (x :: (splitChar c xs).headD []) :: (splitChar c xs).tail := by
  simp only [splitChar, if_neg h]
  cases hs : splitChar c xs with
  | nil => exact absurd hs (splitChar_ne_nil c xs)
  | cons p ps => simp

theorem splitChar_of_not_mem (c : Char) (l : List Char) (h : c ∉ l) :
    splitChar c l = [l] := by
  induction l with
  | nil => rfl
  | cons x xs ih =>
      have hx : x ≠ c := fun e => h (e ▸ List.mem_cons_self x xs)
      have hxs : c ∉ xs := fun m => h (List.mem_cons_of_mem x m)
      rw [splitChar_cons_ne c x xs hx, ih hxs]
      simp

theorem splitChar_append_sep (c : Char) (s t : List Char) (h : c ∉ s) :
    splitChar c (s ++ c :: t) = s :: splitChar c t := by
  induction s with
  | nil => simpa using splitChar_cons_sep c t
  | cons x xs ih =>
      have hx : x ≠ c := fun e => h (e ▸ List.mem_cons_self x xs)
      have hxs : c ∉ xs := fun m => h (List.mem_cons_of_mem x m)
      rw [List.cons_append, splitChar_cons_ne c x _ hx, ih hxs]
      simp

theorem joinChar_cons (c : Char) (p : List Char) (ps : List (List Char))
    (h : ps ≠ []) : joinChar c (p :: ps) = p ++ c :: joinChar c ps := by
  cases ps with
  | nil => exact absurd rfl h
  | cons q qs => rfl

theorem splitChar_joinChar (c : Char) (segs : List (List Char))
    (h : segs ≠ []) (hc : ∀ s ∈ segs, c ∉ s) :
    splitChar c (joinChar c segs) = segs := by
  induction segs with
  | nil => exact absurd rfl h
  | cons s rest ih =>
      cases rest with
      | nil => exact splitChar_of_not_mem c s (hc s (by simp))
      | cons s2 rest2 =>
          rw [joinChar_cons c s (s2 :: rest2) (by simp),
            splitChar_append_sep c s _ (hc s (by simp)),
            ih (by simp) (fun x hx => hc x (List.mem_cons_of_mem s hx))]

theorem resolveDots_no_dots (acc : List (List Char)) (l : List (List Char))
    (h : ∀ s ∈ l, s ≠ ['.'] ∧ s ≠ ['.', '.']) :
    resolveDots acc l = acc ++ l := by
  induction l generalizing acc with
  | nil => simp [resolveDots]
  | cons s rest ih =>
      have hs := h s (by simp)
      rw [resolveDots, if_neg hs.2, if_neg hs.1,
        ih (acc ++ [s]) (fun x hx => h x (List.mem_cons_of_mem s hx))]
      simp

theorem filterInteriorTail_no_empty (l : List (List Char))
    (h : ∀ x ∈ l, x ≠ []) : filterInteriorTail l = l := by
  induction l with
  | nil => rfl
  | cons x xs ih =>
      cases xs with
      | nil => rfl
      | cons y ys =>
          rw [show filterInteriorTail (x :: y :: ys) =
              if x = [] then filterInteriorTail (y :: ys)
              else x :: filterInteriorTail (y :: ys) from rfl,
            if_neg (h x (by simp)),
            ih (fun z hz => h z (List.mem_cons_of_mem x hz))]

theorem mem_joinChar (c : Char) (segs : List (List Char)) (x : Char)
    (hx : x ∈ joinChar c segs) : x = c ∨ ∃ s ∈ segs, x ∈ s := by
  induction segs with
  | nil => simp [joinChar] at hx
  | cons s rest ih =>
      cases rest with
      | nil =>
          exact Or.inr ⟨s, by simp, hx⟩
      | cons s2 rest2 =>
          rw [joinChar_cons c s (s2 :: rest2) (by simp)] at hx
          rcases List.mem_append.mp hx with h1 | h2
          · exact Or.inr ⟨s, by simp, h1⟩
          · rcases List.mem_cons.mp h2 with h3 | h4
            · exact Or.inl h3
            · rcases ih h4 with h5 | ⟨s3, hs3, hxs3⟩
              · exact Or.inl h5
              · exact Or.inr ⟨s3, List.mem_cons_of_mem s hs3, hxs3⟩

theorem dropWhile_ne_slash (l : List Char) :
    l.dropWhile (fun c => c ≠ '/') = [] ∨
      (l.dropWhile (fun c => c ≠ '/')).headD ' ' = '/' := by
  induction l with
  | nil => exact Or.inl rfl
  | cons x xs ih =>
      by_cases hx : x = '/'
      · right
        simp [List.dropWhile, hx]
      · simpa [List.dropWhile, hx] using ih

-- mark / has lemmas

theorem mark_file_downloaded_fst (db : Ledger) (wid : Nat)
    (url nm : String) (sz : Nat) (st : Bool) :
    (mark_file_downloaded db wid url nm sz st).1 = true := by
  unfold mark_file_downloaded
  split <;> rfl

theorem has_after_mark (db : Ledger) (wid : Nat) (url nm : String)
    (sz : Nat) (st : Bool) :
    is_file_downloaded (mark_file_downloaded db wid url nm sz st).2 url
      = true := by
  unfold mark_file_downloaded
  split
  · assumption
  · simp [is_file_downloaded]

theorem has_mono_mark (db : Ledger) (wid : Nat) (url2 nm : String)
    (sz : Nat) (st : Bool) (url : String)
    (h : is_file_downloaded db url = true) :
    is_file_downloaded (mark_file_downloaded db wid url2 nm sz st).2 url
      = true := by
  unfold mark_file_downloaded
  split
  · exact h
  · simp only [is_file_downloaded, List.any_append]
    simp only [is_file_downloaded] at h
    simp [h]

theorem mark_of_present (db : Ledger) (wid : Nat) (url nm : String)
    (sz : Nat) (st : Bool) (h : is_file_downloaded db url = true) :
    mark_file_downloaded db wid url nm sz st = (true, db) := by
  unfold mark_file_downloaded
  rw [if_pos h]

theorem has_applyRecords (db : Ledger) (calls : List RecordCall)
    (url : String) (h : is_file_downloaded db url = true) :
    is_file_downloaded (applyRecords db calls) url = true := by
  induction calls generalizing db with
  | nil => exact h
  | cons c cs ih =>
      exact ih _ (has_mono_mark db c.website_id c.file_url c.file_name
        c.file_size c.sent url h)

theorem splitChar_append_sep_length (c : Char) (s t : List Char) :
    1 < (splitChar c (s ++ c :: t)).length := by
  induction s with
  | nil =>
      rw [List.nil_append, splitChar_cons_sep]
      cases hs : splitChar c t with
      | nil => exact absurd hs (splitChar_ne_nil c t)
      | cons p ps => simp
  | cons x xs ih =>
      by_cases hx : x = c
      · rw [List.cons_append, hx, splitChar_cons_sep]
        cases hs : splitChar c (xs ++ c :: t) with
        | nil => exact absurd hs (splitChar_ne_nil c _)
        | cons p ps => simp
      · rw [List.cons_append, splitChar_cons_ne c x _ hx]
        cases hs : splitChar c (xs ++ c :: t) with
        | nil => exact absurd hs (splitChar_ne_nil c _)
        | cons p ps =>
            have h2 := ih
            rw [hs] at h2
            simpa using h2

theorem splitChar_getLastD_append (c : Char) (pre tail : List Char)
    (h : c ∉ tail) :
    (splitChar c (pre ++ c :: tail)).getLastD [] = tail := by
  induction pre with
  | nil =>
      rw [List.nil_append, splitChar_cons_sep,
        getLastD_cons_of_ne_nil [] _ [] (splitChar_ne_nil c tail),
        splitChar_of_not_mem c tail h]
      rfl
  | cons x xs ih =>
      by_cases hx : x = c
      · subst hx
        rw [List.cons_append, splitChar_cons_sep,
          getLastD_cons_of_ne_nil [] _ [] (splitChar_ne_nil x _)]
        exact ih
      · rw [List.cons_append, splitChar_cons_ne c x _ hx]
        cases hs : splitChar c (xs ++ c :: tail) with
        | nil => exact absurd hs (splitChar_ne_nil c _)
        | cons p ps =>
            have hlen := splitChar_append_sep_length c xs tail
            rw [hs] at hlen
            have hps : ps ≠ [] := by
              cases ps with
              | nil => simp at hlen
              | cons q qs => simp
            have h2 := ih
            rw [hs, getLastD_cons_of_ne_nil p ps [] hps] at h2
            simp only [List.headD_cons, List.tail_cons]
            rw [getLastD_cons_of_ne_nil (x :: p) ps [] hps]
            exact h2

theorem parseHttp_slash (t : List Char) : parseHttp ('/' :: t) = none := by
  unfold parseHttp
  split_ifs with h1 h2
  · exfalso
    rw [show ('/' :: t).take 7 = '/' :: t.take 6 from rfl] at h1
    have h1b : '/' :: t.take 6 = 'h' :: "ttp://".toList := by
      rw [h1]
      rfl
    injection h1b with hx
    exact absurd hx (by decide)
  · exfalso
    rw [show ('/' :: t).take 8 = '/' :: t.take 7 from rfl] at h2
    have h2b : '/' :: t.take 7 = 'h' :: "ttps://".toList := by
      rw [h2]
      rfl
    injection h2b with hx
    exact absurd hx (by decide)
  · rfl

theorem joinChar_head (c : Char) (s0 : List Char)
    (rest : List (List Char)) :
    ∃ u, joinChar c (s0 :: rest) = s0 ++ u := by
  cases rest with
  | nil => exact ⟨[], by simp [joinChar]⟩
  | cons s1 r2 => exact ⟨c :: joinChar c (s1 :: r2),
      joinChar_cons c s0 (s1 :: r2) (by simp)⟩

theorem urljoin_absolute_general (base href : String) (s n p : List Char)
    (hb : (parseHttp base.toList).isSome = true)
    (hh : parseHttp href.toList = some (s, n, p)) (hn : n ≠ []) :
    urljoin base href = href := by
  obtain ⟨bsp, hbp⟩ := Option.isSome_iff_exists.mp hb
  obtain ⟨bs, bn, bp⟩ := bsp
  have hbne : base ≠ "" := by
    intro e
    rw [e, show ("" : String).toList = [] from rfl,
      show parseHttp [] = none from rfl] at hbp
    exact Option.noConfusion hbp
  have hhne : href ≠ "" := by
    intro e
    rw [e, show ("" : String).toList = [] from rfl,
      show parseHttp [] = none from rfl] at hh
    exact Option.noConfusion hh
  unfold urljoin
  rw [if_neg hbne, if_neg hhne]
  unfold urljoinChars
  simp only [hbp, hh]
  by_cases hsb : s = bs
  · rw [if_neg (by simp [hsb])]
    subst hsb
    unfold resolveRef
    rw [if_pos hn]
    unfold parseHttp at hh
    split_ifs at hh with h7 h8
    · simp only [Option.some.injEq, Prod.mk.injEq] at hh
      obtain ⟨rfl, rfl, rfl⟩ := hh
      unfold unsplitHttp
      rcases dropWhile_ne_slash (href.toList.drop 7) with hd | hd
      · rw [if_neg (fun hcon => hcon.1 hd)]
        rw [show ("http".toList ++ ':' :: '/' :: '/' ::
            ((href.toList.drop 7).takeWhile (fun c => decide (c ≠ '/')) ++
              (href.toList.drop 7).dropWhile (fun c => decide (c ≠ '/'))))
            = "http://".toList ++
              ((href.toList.drop 7).takeWhile (fun c => decide (c ≠ '/')) ++
               (href.toList.drop 7).dropWhile (fun c => decide (c ≠ '/')))
            from rfl,
          List.takeWhile_append_dropWhile, ← h7, List.take_append_drop]
        rfl
      · rw [if_neg (fun hcon => hcon.2 hd)]
        rw [show ("http".toList ++ ':' :: '/' :: '/' ::
            ((href.toList.drop 7).takeWhile (fun c => decide (c ≠ '/')) ++
              (href.toList.drop 7).dropWhile (fun c => decide (c ≠ '/'))))
            = "http://".toList ++
              ((href.toList.drop 7).takeWhile (fun c => decide (c ≠ '/')) ++
               (href.toList.drop 7).dropWhile (fun c => decide (c ≠ '/')))
            from rfl,
          List.takeWhile_append_dropWhile, ← h7, List.take_append_drop]
        rfl
    · simp only [Option.some.injEq, Prod.mk.injEq] at hh
      obtain ⟨rfl, rfl, rfl⟩ := hh
      unfold unsplitHttp
      rcases dropWhile_ne_slash (href.toList.drop 8) with hd | hd
      · rw [if_neg (fun hcon => hcon.1 hd)]
        rw [show ("https".toList ++ ':' :: '/' :: '/' ::
            ((href.toList.drop 8).takeWhile (fun c => decide (c ≠ '/')) ++
              (href.toList.drop 8).dropWhile (fun c => decide (c ≠ '/'))))
            = "https://".toList ++
              ((href.toList.drop 8).takeWhile (fun c => decide (c ≠ '/')) ++
               (href.toList.drop 8).dropWhile (fun c => decide (c ≠ '/')))
            from rfl,
          List.takeWhile_append_dropWhile, ← h8, List.take_append_drop]
        rfl
      · rw [if_neg (fun hcon => hcon.2 hd)]
        rw [show ("https".toList ++ ':' :: '/' :: '/' ::
            ((href.toList.drop 8).takeWhile (fun c => decide (c ≠ '/')) ++
              (href.toList.drop 8).dropWhile (fun c => decide (c ≠ '/'))))
            = "https://".toList ++
              ((href.toList.drop 8).takeWhile (fun c => decide (c ≠ '/')) ++
               (href.toList.drop 8).dropWhile (fun c => decide (c ≠ '/')))
            from rfl,
          List.takeWhile_append_dropWhile, ← h8, List.take_append_drop]
        rfl
  · rw [if_pos hsb]
    rfl

theorem urljoin_network_path_general (base href : String)
    (bs bn bp : List Char)
    (hb : parseHttp base.toList = some (bs, bn, bp))
    (h2 : href.toList.take 2 = ['/', '/'])
    (hnet : (href.toList.drop 2).takeWhile (fun c => c ≠ '/') ≠ []) :
    urljoin base href = String.mk (bs ++ ':' :: href.toList) := by
  have hbne : base ≠ "" := by
    intro e
    rw [e, show ("" : String).toList = [] from rfl,
      show parseHttp [] = none from rfl] at hb
    exact Option.noConfusion hb
  have hne2 : href ≠ "" := by
    intro e
    rw [e] at h2
    exact absurd h2 (by decide)
  obtain ⟨t, ht⟩ : ∃ t, href.toList = '/' :: '/' :: t := by
    rcases hl : href.toList with _ | ⟨a, _ | ⟨b, t⟩⟩
    · rw [hl] at h2
      simp at h2
    · rw [hl] at h2
      simp at h2
    · rw [hl] at h2
      simp at h2
      exact ⟨t, by rw [h2.1, h2.2]⟩
  unfold urljoin
  rw [if_neg hbne, if_neg hne2]
  unfold urljoinChars
  rw [ht]
  simp only [hb, parseHttp_slash]
  rw [if_pos (show ('/' :: '/' :: t).take 2 = ['/', '/'] from rfl)]
  rw [ht] at hnet
  unfold resolveRef
  rw [show ('/' :: '/' :: t).drop 2 = t from rfl]
  rw [show ('/' :: '/' :: t).drop 2 = t from rfl] at hnet
  rw [if_pos hnet]
  unfold unsplitHttp
  rcases dropWhile_ne_slash t with hd | hd
  · rw [if_neg (fun hcon => hcon.1 hd)]
    simp only [List.takeWhile_append_dropWhile]
  · rw [if_neg (fun hcon => hcon.2 hd)]
    simp only [List.takeWhile_append_dropWhile]

theorem urljoin_root_relative_general (segs : List (List Char))
    (hne : segs ≠ []) (hhead : segs.headD [] ≠ [])
    (hall : ∀ s ∈ segs, '/' ∉ s ∧ s ≠ ['.'] ∧ s ≠ ['.', '.']) :
    urljoin "https://a.example/dir/page.html"
        (String.mk ('/' :: joinChar '/' segs))
      = String.mk ("https://a.example".toList ++ '/' :: joinChar '/' segs) := by
  obtain ⟨s0, rest, rfl⟩ : ∃ s0 rest, segs = s0 :: rest := by
    cases segs with
    | nil => exact absurd rfl hne
    | cons a b => exact ⟨a, b, rfl⟩
  have hs0 : s0 ≠ [] := by simpa using hhead
  obtain ⟨c0, cs, rfl⟩ : ∃ c0 cs, s0 = c0 :: cs := by
    cases s0 with
    | nil => exact absurd rfl hs0
    | cons a b => exact ⟨a, b, rfl⟩
  have hc0 : c0 ≠ '/' := by
    intro e
    exact (hall (c0 :: cs) (by simp)).1 (e ▸ List.mem_cons_self c0 cs)
  obtain ⟨u, hu⟩ := joinChar_head '/' (c0 :: cs) rest
  have hhne : String.mk ('/' :: joinChar '/' ((c0 :: cs) :: rest)) ≠ "" := by
    intro e
    exact List.noConfusion (congrArg String.data e)
  unfold urljoin
  rw [if_neg (by decide), if_neg hhne]
  rw [show (String.mk ('/' :: joinChar '/' ((c0 :: cs) :: rest))).toList
      = '/' :: joinChar '/' ((c0 :: cs) :: rest) from rfl]
  unfold urljoinChars
  simp only [show parseHttp ("https://a.example/dir/page.html" : String).toList
      = some ("https".toList, "a.example".toList, "/dir/page.html".toList)
      from by decide, parseHttp_slash]
  have htake : ('/' :: joinChar '/' ((c0 :: cs) :: rest)).take 2
      ≠ ['/', '/'] := by
    rw [hu, show ((c0 :: cs) ++ u) = c0 :: (cs ++ u) from rfl]
    intro e
    rw [show ('/' :: c0 :: (cs ++ u)).take 2 = ['/', c0] from rfl] at e
    simp at e
    exact hc0 e
  rw [if_neg htake]
  unfold resolveRef
  rw [if_neg (by simp), if_neg (by simp)]
  simp only [mergeResolve]
  rw [show splitChar '/' (("/dir/page.html" : String).toList)
      = [[], ("dir" : String).toList, ("page.html" : String).toList]
      from by decide]
  rw [if_pos (show ([[], ("dir" : String).toList,
      ("page.html" : String).toList].getLastD ([] : List Char)) ≠ []
      from by decide)]
  rw [show ([[], ("dir" : String).toList,
      ("page.html" : String).toList] : List (List Char)).dropLast
      = [[], ("dir" : String).toList] from by decide]
  rw [if_pos (show ('/' :: joinChar '/' ((c0 :: cs) :: rest)).headD ' '
      = '/' from rfl)]
  rw [splitChar_cons_sep,
    splitChar_joinChar '/' ((c0 :: cs) :: rest) (by simp)
      (fun s hs => (hall s hs).1)]
  have hnd : ∀ s ∈ ([] :: (c0 :: cs) :: rest : List (List Char)),
      s ≠ ['.'] ∧ s ≠ ['.', '.'] := by
    intro s hs
    rcases List.mem_cons.mp hs with rfl | hs2
    · exact ⟨by decide, by decide⟩
    · exact ⟨(hall s hs2).2.1, (hall s hs2).2.2⟩
  rw [resolveDots_no_dots [] ([] :: (c0 :: cs) :: rest) hnd,
    List.nil_append]
  have hlast : (([] : List Char) :: (c0 :: cs) :: rest).getLastD []
      = ((c0 :: cs) :: rest).getLastD [] :=
    getLastD_cons_of_ne_nil [] _ [] (by simp)
  have hnotdot := (hall _ (getLastD_mem ((c0 :: cs) :: rest) [] (by simp))).2
  have hcond : ¬ ((([] : List Char) :: (c0 :: cs) :: rest).getLastD []
        = ['.']
      ∨ (([] : List Char) :: (c0 :: cs) :: rest).getLastD []
        = ['.', '.']) := by
    rw [hlast]
    rintro (hdot | hdot)
    · exact hnotdot.1 hdot
    · exact hnotdot.2 hdot
  rw [if_neg hcond]
  rw [joinChar_cons '/' [] ((c0 :: cs) :: rest) (by simp), List.nil_append]
  have hpne : ¬ ('/' :: joinChar '/' ((c0 :: cs) :: rest) = []) := by simp
  rw [if_neg hpne]
  simp only [unsplitHttp]
  rw [if_neg (fun hcon => hcon.2 rfl)]
  rfl

theorem urljoin_path_relative_general (segs : List (List Char))
    (hne : segs ≠ [])
    (hall : ∀ s ∈ segs, s ≠ [] ∧ '/' ∉ s ∧ ':' ∉ s ∧ s ≠ ['.']
      ∧ s ≠ ['.', '.']) :
    urljoin "https://a.example/dir/page.html"
        (String.mk (joinChar '/' segs))
      = String.mk ("https://a.example/dir/".toList ++ joinChar '/' segs) := by
  obtain ⟨s0, rest, rfl⟩ : ∃ s0 rest, segs = s0 :: rest := by
    cases segs with
    | nil => exact absurd rfl hne
    | cons a b => exact ⟨a, b, rfl⟩
  have hs0 : s0 ≠ [] := (hall s0 (by simp)).1
  obtain ⟨c0, cs, rfl⟩ : ∃ c0 cs, s0 = c0 :: cs := by
    cases s0 with
    | nil => exact absurd rfl hs0
    | cons a b => exact ⟨a, b, rfl⟩
  have hc0 : c0 ≠ '/' := by
    intro e
    exact (hall (c0 :: cs) (by simp)).2.1 (e ▸ List.mem_cons_self c0 cs)
  obtain ⟨u, hu⟩ := joinChar_head '/' (c0 :: cs) rest
  have hjne : joinChar '/' ((c0 :: cs) :: rest) ≠ [] := by
    rw [hu]
    simp
  have hhne : String.mk (joinChar '/' ((c0 :: cs) :: rest)) ≠ "" := by
    intro e
    exact hjne (congrArg String.data e)
  have hcolon : ':' ∉ joinChar '/' ((c0 :: cs) :: rest) := by
    intro hc
    rcases mem_joinChar '/' ((c0 :: cs) :: rest) ':' hc with h | ⟨s, hs, hcs⟩
    · exact absurd h (by decide)
    · exact (hall s hs).2.2.1 hcs
  have hp : parseHttp (joinChar '/' ((c0 :: cs) :: rest)) = none := by
    unfold parseHttp
    split_ifs with h1 h2
    · refine absurd (List.take_subset 7 _ ?_) hcolon
      rw [h1]
      decide
    · refine absurd (List.take_subset 8 _ ?_) hcolon
      rw [h2]
      decide
    · rfl
  have htake : (joinChar '/' ((c0 :: cs) :: rest)).take 2 ≠ ['/', '/'] := by
    rw [hu, show ((c0 :: cs) ++ u) = c0 :: (cs ++ u) from rfl]
    intro e
    rw [show (c0 :: (cs ++ u)).take 2 = c0 :: (cs ++ u).take 1 from rfl] at e
    injection e with e1
    exact hc0 e1
  unfold urljoin
  rw [if_neg (by decide), if_neg hhne]
  rw [show (String.mk (joinChar '/' ((c0 :: cs) :: rest))).toList
      = joinChar '/' ((c0 :: cs) :: rest) from rfl]
  unfold urljoinChars
  simp only [show parseHttp ("https://a.example/dir/page.html" : String).toList
      = some ("https".toList, "a.example".toList, "/dir/page.html".toList)
      from by decide, hp]
  rw [if_neg htake]
  unfold resolveRef
  rw [if_neg (by simp), if_neg hjne]
  simp only [mergeResolve]
  rw [show splitChar '/' (("/dir/page.html" : String).toList)
      = [[], ("dir" : String).toList, ("page.html" : String).toList]
      from by decide]
  rw [if_pos (show ([[], ("dir" : String).toList,
      ("page.html" : String).toList].getLastD ([] : List Char)) ≠ []
      from by decide)]
  rw [show ([[], ("dir" : String).toList,
      ("page.html" : String).toList] : List (List Char)).dropLast
      = [[], ("dir" : String).toList] from by decide]
  have hhd : ¬ ((joinChar '/' ((c0 :: cs) :: rest)).headD ' ' = '/') := by
    rw [hu]
    exact hc0
  rw [if_neg hhd]
  rw [splitChar_joinChar '/' ((c0 :: cs) :: rest) (by simp)
    (fun s hs => (hall s hs).2.1)]
  rw [show ([[], ("dir" : String).toList] : List (List Char))
      ++ (c0 :: cs) :: rest
      = [] :: ("dir" : String).toList :: (c0 :: cs) :: rest from rfl]
  have hne3 : ∀ x ∈ ("dir" : String).toList :: (c0 :: cs) :: rest,
      x ≠ ([] : List Char) := by
    intro x hx
    rcases List.mem_cons.mp hx with rfl | hx2
    · decide
    · exact (hall x hx2).1
  rw [show filterInterior
        ([] :: ("dir" : String).toList :: (c0 :: cs) :: rest)
      = [] :: filterInteriorTail
        (("dir" : String).toList :: (c0 :: cs) :: rest) from rfl,
    filterInteriorTail_no_empty _ hne3]
  have hnd : ∀ s ∈ ([] :: ("dir" : String).toList :: (c0 :: cs) :: rest
      : List (List Char)), s ≠ ['.'] ∧ s ≠ ['.', '.'] := by
    intro s hs
    rcases List.mem_cons.mp hs with rfl | hs2
    · exact ⟨by decide, by decide⟩
    · rcases List.mem_cons.mp hs2 with rfl | hs3
      · exact ⟨by decide, by decide⟩
      · exact ⟨(hall s hs3).2.2.2.1, (hall s hs3).2.2.2.2⟩
  rw [resolveDots_no_dots [] _ hnd, List.nil_append]
  have hlast : (([] : List Char) :: ("dir" : String).toList
        :: (c0 :: cs) :: rest).getLastD []
      = ((c0 :: cs) :: rest).getLastD [] := by
    rw [getLastD_cons_of_ne_nil [] _ [] (by simp),
      getLastD_cons_of_ne_nil _ _ [] (by simp)]
  have hnotdot := (hall _ (getLastD_mem ((c0 :: cs) :: rest) [] (by simp)))
  have hcond : ¬ ((([] : List Char) :: ("dir" : String).toList
        :: (c0 :: cs) :: rest).getLastD [] = ['.']
      ∨ (([] : List Char) :: ("dir" : String).toList
        :: (c0 :: cs) :: rest).getLastD [] = ['.', '.']) := by
    rw [hlast]
    rintro (hdot | hdot)
    · exact hnotdot.2.2.2.1 hdot
    · exact hnotdot.2.2.2.2 hdot
  rw [if_neg hcond]
  rw [joinChar_cons '/' [] (("dir" : String).toList :: (c0 :: cs) :: rest)
      (by simp), List.nil_append,
    joinChar_cons '/' ("dir" : String).toList ((c0 :: cs) :: rest)
      (by simp)]
  have hpne : ¬ ('/' :: (("dir" : String).toList
      ++ '/' :: joinChar '/' ((c0 :: cs) :: rest)) = []) := by simp
  rw [if_neg hpne]
  simp only [unsplitHttp]
  rw [if_neg (fun hcon => hcon.2 rfl)]
  rfl

-- ===================== Claim C9 =====================

/-- C9 counterexample: the href //b.example/f.zip has a leading '/', so
the claimed rule resolves it against the origin's scheme and host,
producing https://a.example//b.example/f.zip; but urljoin — the function
the scanner calls — treats it as a network-path reference and produces
https://b.example/f.zip, replacing the host.  The claimed resolution rule
therefore disagrees with the code on this href. -/
theorem urljoin_network_relative_counterexample :
    urljoin "https://a.example/dir/page.html" "//b.example/f.zip"
        = "https://b.example/f.zip" ∧
    resolveClaimRule "https://a.example/dir/page.html" "//b.example/f.zip"
        = "https://a.example//b.example/f.zip" ∧
    urljoin "https://a.example/dir/page.html" "//b.example/f.zip"
      ≠ resolveClaimRule "https://a.example/dir/page.html"
          "//b.example/f.zip" := by decide

/-- C9 amended: for the scanner's urljoin at base
https://a.example/dir/page.html: an already-absolute http(s) href with a
nonempty host passes through unchanged; an href with a leading "//"
(network-path reference) adopts the origin's scheme but keeps its own
host; a root-relative href — a leading '/' not followed by a second '/' —
made of '/'-free, non-dot segments resolves against the origin's scheme
and host; any other href (scheme-less, not starting with '/') joins
against the page's own URL as base, resolving into the page's directory;
and the three example resolutions of the claim hold. -/
theorem urljoin_resolution_amended (href : String) (s n p : List Char)
    (segs segs2 : List (List Char)) :
    (urljoin "https://a.example/dir/page.html" "/f.zip"
        = "https://a.example/f.zip" ∧
      urljoin "https://a.example/dir/page.html" "sub/f.zip"
        = "https://a.example/dir/sub/f.zip" ∧
      urljoin "https://a.example/dir/page.html" "https://b.example/f.zip"
        = "https://b.example/f.zip") ∧
    (parseHttp href.toList = some (s, n, p) → n ≠ [] →
      urljoin "https://a.example/dir/page.html" href = href) ∧
    (href.toList.take 2 = ['/', '/'] →
      (href.toList.drop 2).takeWhile (fun c => c ≠ '/') ≠ [] →
      urljoin "https://a.example/dir/page.html" href = "https:" ++ href) ∧
    (segs ≠ [] → segs.headD [] ≠ [] →
      (∀ t ∈ segs, '/' ∉ t ∧ t ≠ ['.'] ∧ t ≠ ['.', '.']) →
      urljoin "https://a.example/dir/page.html"
          (String.mk ('/' :: joinChar '/' segs))
        = String.mk ("https://a.example".toList
            ++ '/' :: joinChar '/' segs)) ∧
    (segs2 ≠ [] →
      (∀ t ∈ segs2, t ≠ [] ∧ '/' ∉ t ∧ ':' ∉ t ∧ t ≠ ['.']
        ∧ t ≠ ['.', '.']) →
      urljoin "https://a.example/dir/page.html"
          (String.mk (joinChar '/' segs2))
        = String.mk ("https://a.example/dir/".toList
            ++ joinChar '/' segs2)) := by
  refine ⟨⟨by decide, by decide, by decide⟩,
    fun hh hn =>
      urljoin_absolute_general "https://a.example/dir/page.html" href s n p
        (by decide) hh hn,
    fun h2 hnet =>
      (urljoin_network_path_general "https://a.example/dir/page.html" href
        "https".toList "a.example".toList "/dir/page.html".toList
        (by decide) h2 hnet).trans rfl,
    fun h1 h2 h3 => urljoin_root_relative_general segs h1 h2 h3,
    fun h1 h2 => urljoin_path_relative_general segs2 h1 h2⟩

/-- Witness for C9 as amended: each clause applied at a concrete href. -/
theorem urljoin_resolution_amended_witness :
    parseHttp ("https://b.example/f.zip" : String).toList
        = some (("https" : String).toList, ("b.example" : String).toList,
            ("/f.zip" : String).toList) ∧
    urljoin "https://a.example/dir/page.html" "https://b.example/f.zip"
        = "https://b.example/f.zip" ∧
    ("//b.example/f.zip" : String).toList.take 2 = ['/', '/'] ∧
    urljoin "https://a.example/dir/page.html" "//b.example/f.zip"
        = "https:" ++ "//b.example/f.zip" ∧
    urljoin "https://a.example/dir/page.html"
        (String.mk ('/' :: joinChar '/' [("f.zip" : String).toList]))
      = String.mk (("https://a.example" : String).toList
          ++ '/' :: joinChar '/' [("f.zip" : String).toList]) ∧
    urljoin "https://a.example/dir/page.html"
        (String.mk (joinChar '/' [("sub" : String).toList,
          ("f.zip" : String).toList]))
      = String.mk (("https://a.example/dir/" : String).toList
          ++ joinChar '/' [("sub" : String).toList,
            ("f.zip" : String).toList]) :=
  ⟨by decide,
    (urljoin_resolution_amended "https://b.example/f.zip"
      ("https" : String).toList ("b.example" : String).toList
      ("/f.zip" : String).toList [] []).2.1 (by decide) (by decide),
    by decide,
    (urljoin_resolution_amended "//b.example/f.zip" [] [] [] [] []).2.2.1
      (by decide) (by decide),
    (urljoin_resolution_amended "" [] [] []
      [("f.zip" : String).toList] []).2.2.2.1
      (by decide) (by decide) (by decide),
    (urljoin_resolution_amended "" [] [] [] []
      [("sub" : String).toList, ("f.zip" : String).toList]).2.2.2.2
      (by decide) (by decide)⟩

-- ===================== Claim C2 =====================

/-- C2: Database.mark_file_downloaded is idempotent on the file URL: the
first call for an absent URL returns success and appends exactly the new
row, every later call with the same URL returns success and leaves the
ledger unchanged, and is_file_downloaded returns true right after the
first record and stays true under any further sequence of record calls. -/
theorem ledger_record_idempotent (db : Ledger) (wid : Nat) (url nm : String)
    (sz : Nat) (st : Bool) (h : is_file_downloaded db url = false) :
    mark_file_downloaded db wid url nm sz st
        = (true, db ++ [⟨wid, url, nm, sz, st⟩]) ∧
    is_file_downloaded (mark_file_downloaded db wid url nm sz st).2 url
        = true ∧
    (∀ (wid2 : Nat) (nm2 : String) (sz2 : Nat) (st2 : Bool),
        mark_file_downloaded (mark_file_downloaded db wid url nm sz st).2
            wid2 url nm2 sz2 st2
          = (true, (mark_file_downloaded db wid url nm sz st).2)) ∧
    (∀ calls : List RecordCall,
        is_file_downloaded
            (applyRecords (mark_file_downloaded db wid url nm sz st).2 calls)
            url = true) := by
  have h1 : mark_file_downloaded db wid url nm sz st
      = (true, db ++ [⟨wid, url, nm, sz, st⟩]) := by
    unfold mark_file_downloaded
    rw [if_neg (by simp [h])]
  exact ⟨h1, has_after_mark db wid url nm sz st,
    fun wid2 nm2 sz2 st2 =>
      mark_of_present _ wid2 url nm2 sz2 st2
        (has_after_mark db wid url nm sz st),
    fun calls => has_applyRecords _ calls url
      (has_after_mark db wid url nm sz st)⟩

/-- Witness for C2 at a concrete ledger and URL. -/
theorem ledger_record_idempotent_witness :
    is_file_downloaded [] "https://x/f.pdf" = false ∧
    is_file_downloaded
        (mark_file_downloaded [] 1 "https://x/f.pdf" "f.pdf" 3 true).2
        "https://x/f.pdf" = true :=
  ⟨by decide,
    (ledger_record_idempotent [] 1 "https://x/f.pdf" "f.pdf" 3 true
      (by decide)).2.1⟩

-- ===================== Claim C5 =====================

/-- C5: when the declared content length exceeds MAX_FILE_SIZE,
download_file returns none and leaves the temp directory unchanged: no
bytes are written to local storage. -/
theorem download_file_size_ceiling (url : String) (now : Nat)
    (resp : HttpResponse) (fs : TempDir) (n : Nat)
    (hcl : resp.content_length = some n) (hn : n > MAX_FILE_SIZE) :
    download_file url now resp fs = (none, fs) := by
  unfold download_file
  by_cases hok : resp.ok
  · rw [if_neg (by simp [hok]), hcl]
    simp only [Option.getD_some]
    rw [if_pos hn]
  · rw [if_pos (by simp [hok])]

/-- Witness for C5: a declared length one byte over the 50 MB ceiling. -/
theorem download_file_size_ceiling_witness :
    (⟨true, some 52428801, [[1]], false⟩ : HttpResponse).content_length
        = some 52428801 ∧
    52428801 > MAX_FILE_SIZE ∧
    download_file "https://x/f.bin" 0 ⟨true, some 52428801, [[1]], false⟩ []
      = (none, []) :=
  ⟨rfl, by decide,
    download_file_size_ceiling "https://x/f.bin" 0
      ⟨true, some 52428801, [[1]], false⟩ [] 52428801 rfl (by decide)⟩

-- ===================== Claim C10 =====================

/-- C10: with no content-length header the ceiling check never rejects:
download_file streams the entire body to the temp file and returns a
record whose size field is 0, the declared default, regardless of how
many bytes were actually written. -/
theorem download_file_no_content_length (url : String) (now : Nat)
    (resp : HttpResponse) (fs : TempDir) (hok : resp.ok = true)
    (hcl : resp.content_length = none)
    (herr : resp.midstream_error = false) :
    download_file url now resp fs
      = (some ⟨downloadFilename url now, downloadFilename url now, 0, url⟩,
         writeTempFile fs (downloadFilename url now)
           resp.chunks.flatten) := by
  unfold download_file
  rw [if_neg (by simp [hok]), hcl]
  simp only [Option.getD_none]
  rw [if_neg (by decide), if_neg (by simp [herr])]

/-- Witness for C10: a 2-byte body with no content-length header is fully
written while the reported size is 0. -/
theorem download_file_no_content_length_witness :
    (⟨true, none, [[5, 6]], false⟩ : HttpResponse).content_length = none ∧
    download_file "https://x/f.bin" 0 ⟨true, none, [[5, 6]], false⟩ []
      = (some ⟨downloadFilename "https://x/f.bin" 0,
               downloadFilename "https://x/f.bin" 0, 0, "https://x/f.bin"⟩,
         writeTempFile [] (downloadFilename "https://x/f.bin" 0)
           ([[5, 6]] : List (List Nat)).flatten) ∧
    ([[5, 6]] : List (List Nat)).flatten.length = 2 :=
  ⟨rfl,
    download_file_no_content_length "https://x/f.bin" 0
      ⟨true, none, [[5, 6]], false⟩ [] rfl rfl rfl,
    by decide⟩

-- ===================== Claim C6 =====================

/-- C6 counterexample: a mid-stream transport error makes download_file
return none, but the partially written file is not discarded: starting
from an empty temp directory, the directory afterwards holds f.pdf with
the three bytes received before the error, contradicting the claim that
no partially written artifact remains. -/
theorem download_midstream_leaves_partial_file :
    download_file "https://x/f.pdf" 0 ⟨true, some 3, [[1, 2, 3]], true⟩ []
      = (none, [("f.pdf", [1, 2, 3])]) ∧
    ([("f.pdf", [1, 2, 3])] : TempDir) ≠ [] := by decide

/-- C6 amended: on a mid-stream transport error download_file returns
none, but the bytes received before the error remain written at the local
temporary path; the partial artifact is not deleted. -/
theorem download_midstream_partial_remains (url : String) (now : Nat)
    (resp : HttpResponse) (fs : TempDir) (hok : resp.ok = true)
    (hsz : resp.content_length.getD 0 ≤ MAX_FILE_SIZE)
    (herr : resp.midstream_error = true) :
    download_file url now resp fs
      = (none, writeTempFile fs (downloadFilename url now)
          resp.chunks.flatten) := by
  unfold download_file
  rw [if_neg (by simp [hok]), if_neg (Nat.not_lt.mpr hsz),
    if_pos (by simp [herr])]

/-- Witness for C6 as amended: four bytes arrive before the error and all
four remain on disk while none is returned. -/
theorem download_midstream_partial_remains_witness :
    (⟨true, some 9, [[1, 2, 3], [4]], true⟩ : HttpResponse).midstream_error
        = true ∧
    download_file "https://x/g.bin" 5 ⟨true, some 9, [[1, 2, 3], [4]], true⟩
        []
      = (none, writeTempFile [] (downloadFilename "https://x/g.bin" 5)
          ([[1, 2, 3], [4]] : List (List Nat)).flatten) :=
  ⟨rfl,
    download_midstream_partial_remains "https://x/g.bin" 5
      ⟨true, some 9, [[1, 2, 3], [4]], true⟩ [] rfl (by decide) rfl⟩

-- ===================== Claim C7 =====================

/-- C7 counterexample: removing a URL that is not in the registry reports
success, not a not-found failure: on the empty registry delete_website
returns True and the command replies with the Removed message. -/
theorem delete_missing_url_reports_success :
    (delete_website [] "https://missing.example" false).1 = true ∧
    delete_site_command_reply [] "https://missing.example" false
      = "Removed: https://missing.example" := by decide

/-- C7 amended: delete_website returns success whenever the DELETE
statement executes without a storage fault, whether or not a row with the
URL existed, and the command replies Removed in that case; it returns
failure exactly on a storage fault, which leaves the registry unchanged.
Not-found is not distinguished from success. -/
theorem delete_website_success_iff_no_fault (reg : List Website)
    (url : String) :
    (delete_website reg url false).1 = true ∧
    (delete_website reg url false).2
        = reg.filter (fun w => w.url != url) ∧
    delete_site_command_reply reg url false = "Removed: " ++ url ∧
    delete_website reg url true = (false, reg) :=
  ⟨rfl, rfl, rfl, rfl⟩

-- ===================== Claim C8 =====================

/-- C8 counterexample: no sanitization happens: the URL
https://x/a|b.pdf yields the local file name a|b.pdf, which contains the
character '|', outside the claimed filesystem-safe set. -/
theorem download_filename_unsafe_char :
    downloadFilename "https://x/a|b.pdf" 0 = "a|b.pdf" ∧
    '|' ∈ ("a|b.pdf" : String).toList ∧
    safeFilenameChar '|' = false := by decide

/-- C8 amended: download_file uses the final '/'-segment of the URL
verbatim as the local file name, dropping everything from the first '?',
and substitutes the timestamp-derived name file_<now>.bin exactly when
that segment is empty; no character of the segment is stripped or
altered. -/
theorem download_filename_unsanitized (pre tail : List Char) (now : Nat)
    (h1 : '/' ∉ tail) (h2 : '?' ∉ tail) :
    downloadFilename (String.mk (pre ++ '/' :: tail)) now
      = (if tail = [] then "file_" ++ toString now ++ ".bin"
         else String.mk tail) ∧
    (∀ t2 : List Char, '/' ∉ t2 →
      downloadFilename (String.mk (pre ++ '/' :: (tail ++ '?' :: t2))) now
        = (if tail = [] then "file_" ++ toString now ++ ".bin"
           else String.mk tail)) := by
  constructor
  · unfold downloadFilename
    have hlast : (splitChar '/' (pre ++ '/' :: tail)).getLastD [] = tail :=
      splitChar_getLastD_append '/' pre tail h1
    have hq : tail.contains '?' = false := by
      cases hb : tail.contains '?'
      · rfl
      · simp at hb
        exact absurd hb h2
    simp only [String.toList]
    rw [hlast, hq]
    simp
  · intro t2 ht2
    unfold downloadFilename
    have hmem : '/' ∉ tail ++ '?' :: t2 := by
      intro hm
      rcases List.mem_append.mp hm with hma | hmb
      · exact h1 hma
      · rcases List.mem_cons.mp hmb with hq | hmt
        · exact absurd hq.symm (by decide)
        · exact ht2 hmt
    have hlast : (splitChar '/' (pre ++ '/' :: (tail ++ '?' :: t2))).getLastD []
        = tail ++ '?' :: t2 :=
      splitChar_getLastD_append '/' pre (tail ++ '?' :: t2) hmem
    have hq : (tail ++ '?' :: t2).contains '?' = true := by simp
    simp only [String.toList]
    rw [hlast, hq, splitChar_append_sep '?' tail t2 h2]
    simp

/-- Witness for C8 as amended: the segment a|b.pdf is used verbatim. -/
theorem download_filename_unsanitized_witness :
    ('/' ∉ ("a|b.pdf" : String).toList) ∧
    downloadFilename (String.mk (("https://x" : String).toList
        ++ '/' :: ("a|b.pdf" : String).toList)) 0
      = (if ("a|b.pdf" : String).toList = []
         then "file_" ++ toString 0 ++ ".bin"
         else String.mk ("a|b.pdf" : String).toList) :=
  ⟨by decide,
    (download_filename_unsanitized ("https://x" : String).toList
      ("a|b.pdf" : String).toList 0 (by decide) (by decide)).1⟩

-- ===================== Claim C3 =====================

/-- C3 counterexample: delivery fails (send outcome false) after a
successful fetch, yet check_websites records a ledger entry for the file
URL, with sent_to_user false — so a ledger entry does exist after a
failed delivery, contradicting the claim. -/
theorem record_created_despite_failed_delivery :
    (processFile [] 1 ⟨"https://x/f.pdf", "f", "pdf"⟩
        (some ⟨"f.pdf", "f.pdf", 3, "https://x/f.pdf"⟩) false).1
      = [⟨1, "https://x/f.pdf", "f", 3, false⟩] ∧
    is_file_downloaded
        (processFile [] 1 ⟨"https://x/f.pdf", "f", "pdf"⟩
          (some ⟨"f.pdf", "f.pdf", 3, "https://x/f.pdf"⟩) false).1
        "https://x/f.pdf" = true := by decide

/-- C3 amended: during a sweep the ledger entry for a candidate link is
recorded whenever the fetch produced a file, regardless of the dispatch
outcome; the dispatch result is stored in the entry's sent_to_user flag,
so after a failed delivery the entry exists with the flag false; only a
failed fetch (or an already-present URL) leaves the ledger unchanged. -/
theorem processFile_records_on_fetch (db : Ledger) (wid : Nat)
    (f : FileInfo) (d : Downloaded) (sent : Bool)
    (h : is_file_downloaded db f.url = false) :
    (processFile db wid f (some d) sent).1
        = db ++ [⟨wid, f.url, f.name, d.size, sent⟩] ∧
    (processFile db wid f (some d) sent).2 = sent ∧
    (processFile db wid f none sent).1 = db := by
  simp [processFile, mark_file_downloaded, h]

/-- Witness for C3 as amended at a concrete sweep state. -/
theorem processFile_records_on_fetch_witness :
    is_file_downloaded [] "https://y/g.zip" = false ∧
    (processFile [] 7 ⟨"https://y/g.zip", "g", "zip"⟩
        (some ⟨"g.zip", "g.zip", 9, "https://y/g.zip"⟩) false).1
      = [] ++ [⟨7, "https://y/g.zip", "g", 9, false⟩] :=
  ⟨by decide,
    (processFile_records_on_fetch [] 7 ⟨"https://y/g.zip", "g", "zip"⟩
      ⟨"g.zip", "g.zip", 9, "https://y/g.zip"⟩ false (by decide)).1⟩

-- ===================== Claim C4 =====================

/-- C4 counterexample: the scanner has no special case for the filter
value all: a site whose file-type filter is the single entry all rejects
https://x/doc.pdf, while the claimed acceptance rule accepts it. -/
theorem filter_all_not_special :
    matchExtension "https://x/doc.pdf" ["all"] = none ∧
    acceptsSpecRule ["all"] "https://x/doc.pdf" = true := by decide

/-- C4 amended: the scanner accepts a candidate link exactly when the
lowercased absolute URL ends with .<type> for one of the configured
types; an empty or all filter receives no special treatment.  With types
pdf,zip the scanner accepts https://x/doc.PDF case-insensitively and
rejects https://x/doc.txt. -/
theorem scanner_filter_characterization (url : String)
    (exts : List String) :
    ((matchExtension url exts).isSome = true
        ↔ ∃ ext ∈ exts, pyEndsWith (pyLower url) ("." ++ ext) = true) ∧
    matchExtension "https://x/doc.PDF" ["pdf", "zip"] = some "pdf" ∧
    matchExtension "https://x/doc.txt" ["pdf", "zip"] = none := by
  refine ⟨?_, by decide, by decide⟩
  induction exts with
  | nil => simp [matchExtension]
  | cons e es ih =>
      by_cases he : pyEndsWith (pyLower url) ("." ++ e) = true
      · simp [matchExtension, he]
      · have he2 : pyEndsWith (pyLower url) ("." ++ e) = false := by
          cases hb : pyEndsWith (pyLower url) ("." ++ e)
          · rfl
          · exact absurd hb he
        simp [matchExtension, he2, ih]

-- ===================== Claim C1 =====================

/-- C1 counterexample: two overlapping sweeps whose dedup checks both run
before either records can each deliver the same file URL: under the
interleaving check1, check2, deliver1, deliver2, each sweep ends with one
delivered outcome for the URL, so the file is delivered twice. -/
theorem overlapping_sweeps_deliver_twice :
    (runSchedule 1 ⟨"https://x/f.pdf", "f", "pdf"⟩ 3
        [true, false, true, false] (initialSweeps [])).t1.delivered = 1 ∧
    (runSchedule 1 ⟨"https://x/f.pdf", "f", "pdf"⟩ 3
        [true, false, true, false] (initialSweeps [])).t2.delivered = 1 := by
  decide

/-- C1 amended: when the two sweeps are serialized — the first sweep runs
its dedup check and its download-deliver-record block to completion before
the second sweep's check — at most one delivered outcome is produced for
the file URL, whatever the initial ledger; the code does not serialize
overlapping sweeps, and interleaved checks allow a double delivery. -/
theorem serialized_sweeps_deliver_at_most_once (wid : Nat) (f : FileInfo)
    (size : Nat) (db : Ledger) :
    (runSchedule wid f size [true, true, false, false]
        (initialSweeps db)).t1.delivered +
      (runSchedule wid f size [true, true, false, false]
        (initialSweeps db)).t2.delivered ≤ 1 := by
  by_cases h : is_file_downloaded db f.url = true
  · simp [runSchedule, stepSweep, initialSweeps, h]
  · have h2 : is_file_downloaded db f.url = false := by
      cases hb : is_file_downloaded db f.url
      · rfl
      · exact absurd hb h
    simp [runSchedule, stepSweep, initialSweeps, h2,
      has_after_mark db wid f.url f.name size true]
